import Mathlib

/-!
Verification of the `edit` plugin (`beetsplug/edit.py`): serializing typed
records to an editable YAML text, parsing the edited text back, and
reconciling the edits onto the in-memory records.

The embedding mirrors the Python source.  Python scalar values are the
inductive `PyValue` (rationals stand in for floats: values are only moved
around, never computed with).  A `dbcore.Model` object becomes the structure
`Model`: its declared field types and current values are explicit, while the
host library's `formatted()` projection and `set_parse` coercion - which live
outside this plugin - are carried as function components of the record, as the
spec describes them ("a 'formatted' (always-string) projection of every field"
and "the record's own string-to-typed-value coercion").  The external YAML
library (`yaml.safe_dump_all` / `yaml.load_all`) is likewise abstracted: the
parser's lazy document stream is a `YamlStream`, a list of yielded documents
followed by an optional syntax error.
-/

namespace BeetsEdit

/-- Python scalar values as they appear in YAML documents and record fields.
`pfloat` carries a rational as a stand-in for a Python float; the plugin never
computes with numbers, it only moves them around. -/
inductive PyValue where
  | pnone
  | pbool (b : Bool)
  | pint (n : Int)
  | pfloat (q : ℚ)
  | pstr (s : String)
deriving DecidableEq

/-- Python `unicode(v)` / `str(v)` on our scalars. -/
def pyStr : PyValue → String
  | .pnone => "None"
  | .pbool true => "True"
  | .pbool false => "False"
  | .pint n => toString n
  | .pfloat q => toString q
  | .pstr s => s

/-- Numeric view used by Python `==`: bools compare as 0/1 and ints compare
equal to floats of the same magnitude. -/
def pyNum : PyValue → Option ℚ
  | .pint n => some (n : ℚ)
  | .pbool b => some (if b then 1 else 0)
  | .pfloat q => some q
  | _ => none

/-- Python `==` on our scalars: `None` equals only `None`, strings compare as
strings, and numbers (ints, floats, bools) compare numerically across types. -/
def pyEq : PyValue → PyValue → Bool
  | .pstr a, .pstr b => a = b
  | .pnone, .pnone => true
  | a, b =>
    match pyNum a, pyNum b with
    | some x, some y => x = y
    | _, _ => false

/-- Python `int(v)`: identity on ints, 0/1 on bools, truncation toward zero on
floats, decimal parsing on strings; fails (raises) on `None`. -/
def pyToInt : PyValue → Option Int
  | .pint n => some n
  | .pbool b => some (if b then 1 else 0)
  | .pfloat q => some (Int.tdiv q.num q.den)
  | .pstr s => s.toInt?
  | .pnone => none

/-- Python truthiness of our scalars (`not obj.id` tests). -/
def pyFalsy : PyValue → Bool
  | .pnone => true
  | .pbool b => !b
  | .pint n => n = 0
  | .pfloat q => q = 0
  | .pstr s => s = ""

/-- The declared semantic type of a field (`obj._type(key)`).  `other` stands
for every type outside `SAFE_TYPES` (strings, paths, durations, ...). -/
inductive FieldType where
  | integer
  | floatT
  | boolean
  | other
deriving DecidableEq

/-- `isinstance(typ, SAFE_TYPES)` with `SAFE_TYPES = (Float, Integer,
Boolean)`. -/
def isSafeType : FieldType → Bool
  | .other => false
  | _ => true

/-- `isinstance(value, typ.model_type)`.  The model types are the Python
runtime types `float`, `int`, `bool`; note that a Python `bool` is an
instance of `int`, so a boolean value passes the Integer check. -/
def isModelType : FieldType → PyValue → Bool
  | .integer, .pint _ => true
  | .integer, .pbool _ => true
  | .floatT, .pfloat _ => true
  | .boolean, .pbool _ => true
  | _, _ => false

/-- A `dbcore.Model` record.  `keysL` is `obj.keys()`, `typ` is
`obj._type(key)`, and `val` the current field values.

Modelled from the spec: the host library's `formatted()` always-string
projection and `set_parse` string-to-typed-value coercion are not part of this
plugin's source; per the spec's data model they are carried as the per-record
functions `fmt` (format one field's value as a string) and `parse` (coerce a
string back through the record's own field-specific parsing). -/
structure Model where
  keysL : List String
  typ : String → FieldType
  val : String → PyValue
  fmt : String → PyValue → String
  parse : String → String → PyValue

/-- A record with no fields (used only to give `List.headD` a default). -/
def Model.empty : Model :=
  { keysL := []
    typ := fun _ => .other
    val := fun _ => .pnone
    fmt := fun _ v => pyStr v
    parse := fun _ s => .pstr s }

/-- `obj[key] = value`: update the field's value; a previously absent key
becomes a (flexible-attribute) key of the record. -/
def Model.setVal (o : Model) (k : String) (v : PyValue) : Model :=
  { o with
    val := fun k2 => if k2 = k then v else o.val k2
    keysL := if o.keysL.contains k then o.keysL else o.keysL ++ [k] }

/-- `_safe_value(obj, key, value)`: the declared type is one of the safe types
and the value's runtime type matches the type's model type. -/
def safe_value (obj : Model) (key : String) (value : PyValue) : Bool :=
  isSafeType (obj.typ key) && isModelType (obj.typ key) value

/-- A flattened document: a plain string-keyed mapping, as an ordered
association list (Python dicts preserve insertion order). -/
abbrev Doc := List (String × PyValue)

/-- `flatten(obj, fields)`: one entry per key of the record - the raw value if
it is safe, otherwise the formatted string - filtered to `fields` when that
argument is truthy (non-`None` and non-empty). -/
def flatten (obj : Model) (fields : Option (List String)) : Doc :=
  let d := obj.keysL.map (fun k =>
    (k, if safe_value obj k (obj.val k) then obj.val k
        else .pstr (obj.fmt k (obj.val k))))
  match fields with
  | some fs => if fs.isEmpty then d else d.filter (fun kv => fs.contains kv.1)
  | none => d

/-- `apply_(obj, data)`: for each entry, assign directly if the value is safe
for the field, otherwise parse the stringified value through the record's own
coercion (`obj.set_parse(key, unicode(value))`). -/
def apply_ (obj : Model) (data : Doc) : Model :=
  data.foldl (fun o kv =>
    if safe_value o kv.1 kv.2 then o.setVal kv.1 kv.2
    else o.setVal kv.1 (o.parse kv.1 (pyStr kv.2))) obj

/-! ### Flatten / apply round trip (C1) -/

lemma setVal_typ (o : Model) (k : String) (v : PyValue) :
    (o.setVal k v).typ = o.typ := rfl

lemma setVal_parse (o : Model) (k : String) (v : PyValue) :
    (o.setVal k v).parse = o.parse := rfl

lemma setVal_val (o : Model) (k : String) (v : PyValue) (k2 : String) :
    (o.setVal k v).val k2 = if k2 = k then v else o.val k2 := rfl

lemma safe_value_of_typ_eq {o obj : Model} (h : o.typ = obj.typ)
    (k : String) (v : PyValue) : safe_value o k v = safe_value obj k v := by
  simp [safe_value, h]

/-- Folding `apply_`'s step over entries that each write back the field's
current value leaves every value of the record unchanged. -/
lemma apply_fold_val (obj : Model) :
    ∀ (data : Doc) (o : Model), o.typ = obj.typ → o.parse = obj.parse →
      (∀ k, o.val k = obj.val k) →
      (∀ kv ∈ data,
        (if safe_value obj kv.1 kv.2 then kv.2
         else obj.parse kv.1 (pyStr kv.2)) = obj.val kv.1) →
      ∀ k, (data.foldl (fun o kv =>
              if safe_value o kv.1 kv.2 then o.setVal kv.1 kv.2
              else o.setVal kv.1 (o.parse kv.1 (pyStr kv.2))) o).val k
            = obj.val k := by
  intro data
  induction data with
  | nil => intro o _ _ hval _ k; simpa using hval k
  | cons kv rest ih =>
    intro o htyp hparse hval hdata k
    simp only [List.foldl_cons]
    have hsafe := safe_value_of_typ_eq htyp kv.1 kv.2
    have hkv := hdata kv (List.mem_cons_self kv rest)
    have hrest : ∀ p ∈ rest,
        (if safe_value obj p.1 p.2 then p.2
         else obj.parse p.1 (pyStr p.2)) = obj.val p.1 :=
      fun p hp => hdata p (List.mem_cons_of_mem kv hp)
    by_cases hs : safe_value obj kv.1 kv.2 = true
    · rw [if_pos (by rw [hsafe]; exact hs)]
      refine ih (o.setVal kv.1 kv.2) (by rw [setVal_typ, htyp])
        (by rw [setVal_parse, hparse]) ?_ hrest k
      intro k2
      rw [setVal_val]
      by_cases hk2 : k2 = kv.1
      · subst hk2
        rw [if_pos rfl]
        rw [if_pos hs] at hkv
        exact hkv
      · rw [if_neg hk2]; exact hval k2
    · rw [if_neg (by rw [hsafe]; exact hs)]
      refine ih (o.setVal kv.1 (o.parse kv.1 (pyStr kv.2)))
        (by rw [setVal_typ, htyp]) (by rw [setVal_parse, hparse]) ?_ hrest k
      intro k2
      rw [setVal_val]
      by_cases hk2 : k2 = kv.1
      · subst hk2
        rw [if_pos rfl]
        rw [if_neg hs] at hkv
        rw [hparse]
        exact hkv
      · rw [if_neg hk2]; exact hval k2

/-- Every entry of a flattened document writes back the field's current
value when re-applied, provided the record's coercion inverts its formatting
on the unsafely-typed fields. -/
lemma flatten_entry_restores (obj : Model) (fields : Option (List String))
    (hinv : ∀ k ∈ obj.keysL, safe_value obj k (obj.val k) = false →
      obj.parse k (obj.fmt k (obj.val k)) = obj.val k) :
    ∀ kv ∈ flatten obj fields,
      (if safe_value obj kv.1 kv.2 then kv.2
       else obj.parse kv.1 (pyStr kv.2)) = obj.val kv.1 := by
  intro kv hkv
  have hbase : kv ∈ obj.keysL.map (fun k =>
      (k, if safe_value obj k (obj.val k) then obj.val k
          else .pstr (obj.fmt k (obj.val k)))) := by
    unfold flatten at hkv
    rcases fields with _ | fs
    · exact hkv
    · by_cases he : fs.isEmpty
      · simpa [he] using hkv
      · simp only [he, if_neg] at hkv
        simp only [Bool.false_eq_true, if_false] at hkv
        exact List.mem_of_mem_filter hkv
  rcases List.mem_map.mp hbase with ⟨k, hkmem, hkeq⟩
  by_cases hs : safe_value obj k (obj.val k) = true
  · rw [if_pos hs] at hkeq
    subst hkeq
    simp [hs]
  · rw [if_neg hs] at hkeq
    subst hkeq
    have hs' : safe_value obj k (.pstr (obj.fmt k (obj.val k))) = false := by
      cases h : obj.typ k <;> simp [safe_value, isModelType, isSafeType, h]
    simp only [hs', Bool.false_eq_true, if_false, pyStr]
    exact hinv k hkmem (Bool.eq_false_iff.mpr hs)

/-- C1: for every record and every field selection, re-applying the record's
own flattened document restores every field to its current value - the fields
in the selection are unchanged and all other fields untouched.  The hypothesis
`hinv` is the spec's contract for the host record interface: on fields whose
value is not a safe native scalar, the record's string coercion inverts its
string formatting. -/
theorem C1_flatten_apply_roundtrip (obj : Model) (fields : Option (List String))
    (hinv : ∀ k ∈ obj.keysL, safe_value obj k (obj.val k) = false →
      obj.parse k (obj.fmt k (obj.val k)) = obj.val k) :
    ∀ k, (apply_ obj (flatten obj fields)).val k = obj.val k := by
  intro k
  unfold apply_
  exact apply_fold_val obj (flatten obj fields) obj rfl rfl (fun _ => rfl)
    (flatten_entry_restores obj fields hinv) k

/-- A concrete record for exercising C1: an unsafe (string-formatted) title
field, a safe integer track field, and an id field. -/
def mC1 : Model :=
  { keysL := ["title", "track", "id"]
    typ := fun k => if k = "track" then .integer
                    else if k = "id" then .integer else .other
    val := fun k => if k = "title" then .pstr "Song"
                    else if k = "track" then .pint 7
                    else if k = "id" then .pint 3 else .pnone
    fmt := fun _ v => pyStr v
    parse := fun _ s => .pstr s }

theorem C1_witness :
    (apply_ mC1 (flatten mC1 (some ["title", "id"]))).val "title"
      = mC1.val "title" :=
  C1_flatten_apply_roundtrip mC1 (some ["title", "id"]) (by decide) "title"

/-! ### The serialization codec: `dump` and `load` (C5, C7) -/

/-- `d.get(k)` on a Python dict (first binding; Python dicts have unique
keys). -/
def dictGet (d : Doc) (k : String) : Option PyValue :=
  (d.find? (fun kv => kv.1 = k)).map (fun kv => kv.2)

/-- `d[k] = v` on a Python dict: an existing key keeps its position and gets
the new value; a new key is appended. -/
def dictSet (d : Doc) (k : String) (v : PyValue) : Doc :=
  if (d.find? (fun kv => kv.1 = k)).isSome then
    d.map (fun kv => if kv.1 = k then (k, v) else kv)
  else d ++ [(k, v)]

/-- One document yielded by the YAML parser: either a mapping (whose keys may
have any scalar type after the user edited the text), or a non-mapping value,
of which `load` only ever inspects the Python type name. -/
inductive PyDoc where
  | dict (entries : List (PyValue × PyValue))
  | nondict (typeName : String)
deriving DecidableEq

def PyDoc.isDict : PyDoc → Bool
  | .dict _ => true
  | .nondict _ => false

/-- The lazy stream produced by `yaml.load_all`: the documents it yields in
order, then optionally a `yaml.YAMLError` (with its message) raised by further
iteration.  This abstracts the external YAML library, which is not part of
this plugin's source. -/
structure YamlStream where
  docs : List PyDoc
  err : Option String

/-- `{unicode(k): v for k, v in d.items()}`: coerce every key to a string,
with Python dict-comprehension semantics (first occurrence keeps its position,
a later duplicate overwrites the value). -/
def stringifyKeys (entries : List (PyValue × PyValue)) : Doc :=
  entries.foldl (fun d kv => dictSet d (pyStr kv.1) kv.2) []

/-- The mapping `load` builds from one successfully checked document. -/
def PyDoc.loaded : PyDoc → Doc
  | .dict es => stringifyKeys es
  | .nondict _ => []

/-- The `for d in yaml.load_all(s)` body: reject the first non-mapping
document with the `ParseError` message naming its type, otherwise collect the
string-keyed mappings in order. -/
def loadDocs : List PyDoc → Except String (List Doc)
  | [] => .ok []
  | .dict es :: rest => (loadDocs rest).map (fun out => stringifyKeys es :: out)
  | .nondict t :: rest =>
    have : rest.length < rest.length + 1 := Nat.lt_succ_self _
    .error ("each entry must be a dictionary; found " ++ t)

/-- `load(s)`: iterate the parsed document stream; a non-mapping document
raises the plugin's own `ParseError` (not caught by the `except
yaml.YAMLError` clause), a YAML syntax error surfacing from the iteration is
caught and wrapped as `ParseError('invalid YAML: ...')`. -/
def load (st : YamlStream) : Except String (List Doc) :=
  match loadDocs st.docs with
  | .error m => .error m
  | .ok out =>
    match st.err with
    | some e => .error ("invalid YAML: " ++ e)
    | none => .ok out

/-- `dump(arg)`: delegate to the external `yaml.safe_dump_all` (abstracted as
the `yamlDumpAll` argument; the Unicode/block-style options only shape the
text, which this development treats as opaque). -/
def dump (yamlDumpAll : List Doc → String) (arg : List Doc) : String :=
  yamlDumpAll arg

lemma loadDocs_all_dict {ds : List PyDoc} (h : ∀ d ∈ ds, d.isDict = true) :
    loadDocs ds = .ok (ds.map PyDoc.loaded) := by
  induction ds with
  | nil => rfl
  | cons d rest ih =>
    cases d with
    | dict es =>
      have := ih (fun d hd => h d (List.mem_cons_of_mem _ hd))
      simp [loadDocs, this, PyDoc.loaded, Except.map]
    | nondict t =>
      have := h (.nondict t) (List.mem_cons_self _ _)
      simp [PyDoc.isDict] at this

lemma loadDocs_ok_forall {ds : List PyDoc} :
    ∀ out, loadDocs ds = .ok out → ∀ d ∈ ds, d.isDict = true := by
  induction ds with
  | nil => intro out _ d hd; cases hd
  | cons d0 rest ih =>
    intro out hout d hd
    cases d0 with
    | dict es =>
      rcases List.mem_cons.mp hd with rfl | hd
      · rfl
      · simp only [loadDocs] at hout
        cases hrest : loadDocs rest with
        | error e => simp [hrest, Except.map] at hout
        | ok o => exact ih o hrest d hd
    | nondict t =>
      simp only [loadDocs] at hout
      cases hout

lemma loadDocs_ok_iff {ds : List PyDoc} :
    (∃ out, loadDocs ds = .ok out) ↔ ∀ d ∈ ds, d.isDict = true := by
  constructor
  · rintro ⟨out, hout⟩
    exact loadDocs_ok_forall out hout
  · intro h
    exact ⟨_, loadDocs_all_dict h⟩

lemma loadDocs_nondict :
    ∀ (pre : List PyDoc) (t : String) (rest : List PyDoc),
      (∀ d ∈ pre, d.isDict = true) →
      loadDocs (pre ++ .nondict t :: rest)
        = .error ("each entry must be a dictionary; found " ++ t) := by
  intro pre
  induction pre with
  | nil => intro t rest _; rfl
  | cons d0 pre ih =>
    intro t rest h
    cases d0 with
    | dict es =>
      have := ih t rest (fun d hd => h d (List.mem_cons_of_mem _ hd))
      simp [loadDocs, this, Except.map]
    | nondict t0 =>
      have := h (.nondict t0) (List.mem_cons_self _ _)
      simp [PyDoc.isDict] at this

/-- C5: `load` fails exactly when the stream has a YAML syntax error or some
document is not a mapping; the first non-mapping document produces the
`ParseError` naming its type, a syntax error (on an otherwise well-formed
document list) produces the `ParseError` embedding the parser diagnostic; on
success the result is the ordered documents with every key coerced to a
string. -/
theorem C5_load_characterization (st : YamlStream) :
    ((∃ out, load st = .ok out) ↔
        (st.err = none ∧ ∀ d ∈ st.docs, d.isDict = true)) ∧
    ((st.err = none ∧ ∀ d ∈ st.docs, d.isDict = true) →
        load st = .ok (st.docs.map PyDoc.loaded)) ∧
    (∀ pre t rest, st.docs = pre ++ .nondict t :: rest →
        (∀ d ∈ pre, d.isDict = true) →
        load st = .error ("each entry must be a dictionary; found " ++ t)) ∧
    (∀ e, st.err = some e → (∀ d ∈ st.docs, d.isDict = true) →
        load st = .error ("invalid YAML: " ++ e)) := by
  refine ⟨⟨?_, ?_⟩, ?_, ?_, ?_⟩
  · rintro ⟨out, hout⟩
    unfold load at hout
    cases hdocs : loadDocs st.docs with
    | error m => rw [hdocs] at hout; cases hout
    | ok o =>
      rw [hdocs] at hout
      cases herr : st.err with
      | some e => rw [herr] at hout; cases hout
      | none =>
        exact ⟨rfl, loadDocs_ok_iff.mp ⟨o, hdocs⟩⟩
  · rintro ⟨herr, hdict⟩
    exact ⟨st.docs.map PyDoc.loaded, by
      unfold load; rw [loadDocs_all_dict hdict, herr]⟩
  · rintro ⟨herr, hdict⟩
    unfold load
    rw [loadDocs_all_dict hdict, herr]
  · intro pre t rest hdocs hpre
    unfold load
    rw [hdocs, loadDocs_nondict pre t rest hpre]
  · intro e herr hdict
    unfold load
    rw [loadDocs_all_dict hdict, herr]

theorem C5_witness :
    load ⟨[.nondict "list"], none⟩
      = .error "each entry must be a dictionary; found list" :=
  (C5_load_characterization ⟨[.nondict "list"], none⟩).2.2.1
    [] "list" [] rfl (by intro d hd; cases hd)

/-! ### Serialize -> parse round trip (C7) -/

lemma dictSet_fresh {d : Doc} {k : String} (v : PyValue)
    (h : ∀ kv ∈ d, kv.1 ≠ k) : dictSet d k v = d ++ [(k, v)] := by
  unfold dictSet
  rw [if_neg]
  simp only [Option.isSome_iff_exists, not_exists]
  intro kv hkv
  have := List.find?_some hkv
  have hmem := List.mem_of_find?_eq_some hkv
  exact absurd (by simpa using this) (h kv hmem)

lemma stringifyKeys_fold_pstr (d : Doc) :
    ∀ (acc : Doc), (d.map (fun kv => kv.1)).Nodup →
      (∀ kv ∈ d, ∀ kv2 ∈ acc, kv2.1 ≠ kv.1) →
      (d.map (fun kv => (PyValue.pstr kv.1, kv.2))).foldl
        (fun a kv => dictSet a (pyStr kv.1) kv.2) acc = acc ++ d := by
  induction d with
  | nil => intro acc _ _; simp
  | cons kv rest ih =>
    intro acc hnd hfresh
    simp only [List.map_cons, List.foldl_cons]
    have hset : dictSet acc (pyStr (PyValue.pstr kv.1)) kv.2 = acc ++ [(kv.1, kv.2)] := by
      simp only [pyStr]
      exact dictSet_fresh kv.2
        (fun kv2 h2 => hfresh kv (List.mem_cons_self _ _) kv2 h2)
    rw [hset]
    have hnd' : (rest.map (fun kv => kv.1)).Nodup := by
      simp only [List.map_cons, List.nodup_cons] at hnd
      exact hnd.2
    have hk_not : kv.1 ∉ rest.map (fun kv => kv.1) := by
      simp only [List.map_cons, List.nodup_cons] at hnd
      exact hnd.1
    have := ih (acc ++ [(kv.1, kv.2)]) hnd' ?_
    · rw [this, List.append_assoc]
      rfl
    · intro p hp kv2 hkv2
      rcases List.mem_append.mp hkv2 with h2 | h2
      · exact hfresh p (List.mem_cons_of_mem _ hp) kv2 h2
      · simp only [List.mem_singleton] at h2
        subst h2
        intro hcontra
        exact hk_not (hcontra ▸ List.mem_map_of_mem (fun kv => kv.1) hp)

/-- Parsing back a mapping whose keys were strings all along (as the codec
produces) is the identity. -/
lemma stringifyKeys_pstr (d : Doc) (h : (d.map (fun kv => kv.1)).Nodup) :
    stringifyKeys (d.map (fun kv => (PyValue.pstr kv.1, kv.2))) = d := by
  unfold stringifyKeys
  simpa using stringifyKeys_fold_pstr d [] h (by intro kv _ kv2 h2; cases h2)

/-- C7: serialize -> parse round trip.  The external YAML layer is abstracted:
`hyaml` states (per the spec's external-interface contract) that parsing the
dumped text yields exactly the dumped documents, as string-keyed mappings,
with no trailing syntax error.  Under that contract, `load (dump batch)`
returns the batch unchanged. -/
theorem C7_dump_load_roundtrip (yamlDumpAll : List Doc → String)
    (yamlLoadAll : String → YamlStream) (batch : List Doc)
    (hnodup : ∀ d ∈ batch, (d.map (fun kv => kv.1)).Nodup)
    (hyaml : yamlLoadAll (dump yamlDumpAll batch) =
      ⟨batch.map (fun d => PyDoc.dict (d.map (fun kv => (PyValue.pstr kv.1, kv.2)))),
       none⟩) :
    load (yamlLoadAll (dump yamlDumpAll batch)) = .ok batch := by
  rw [hyaml]
  unfold load
  rw [loadDocs_all_dict (by
    intro d hd
    rcases List.mem_map.mp hd with ⟨d0, _, hd0⟩
    subst hd0
    rfl)]
  simp only [List.map_map]
  congr 1
  refine List.map_congr_left ?_ |>.trans (List.map_id batch)
  intro d hd
  simp only [Function.comp_apply, PyDoc.loaded, id]
  exact stringifyKeys_pstr d (hnodup d hd)

theorem C7_witness :
    load ((fun _ => (⟨[.dict [(.pstr "album", .pstr "A")],
                      .dict [(.pstr "album", .pstr "B")]], none⟩ : YamlStream))
        (dump (fun _ => "blob")
          [[("album", .pstr "A")], [("album", .pstr "B")]]))
      = .ok [[("album", .pstr "A")], [("album", .pstr "B")]] :=
  C7_dump_load_roundtrip (fun _ => "blob")
    (fun _ => ⟨[.dict [(.pstr "album", .pstr "A")],
                .dict [(.pstr "album", .pstr "B")]], none⟩)
    [[("album", .pstr "A")], [("album", .pstr "B")]]
    (by decide) rfl

/-! ### The reconciliation engine: `apply_data` (C2, C6, C10) -/

/-- The configurable reference field (`_set_reference_field` accepts exactly
`id` and `path`). -/
inductive RefField where
  | id
  | path
deriving DecidableEq

def refName : RefField → String
  | .id => "id"
  | .path => "path"

/-- A reference value: `int(...)` in id mode, a displayable path string in
path mode. -/
inductive RefVal where
  | i (n : Int)
  | s (st : String)
deriving DecidableEq

/-- Modelled from the spec: `util.displayable_path` (host library, not in
src/) decodes a filesystem path to text; on the textual values this
development carries it is the string rendering of the value. -/
def displayablePath (v : PyValue) : String := pyStr v

/-- `self.ref_field_value(o)`: `int(o.id)` in id mode (which raises - `none` -
on an uncastable value), `displayable_path(o.path)` in path mode. -/
def ref_field_value : RefField → Model → Option RefVal
  | .id, o => (pyToInt (o.val "id")).map RefVal.i
  | .path, o => some (RefVal.s (displayablePath (o.val "path")))

/-- `self.obj_from_ref(d)`: `int(d['id'])` resp. `displayable_path(d['path'])`
on a flattened document; `none` models the KeyError / cast error. -/
def obj_from_ref : RefField → Doc → Option RefVal
  | .id, d => (dictGet d "id").bind (fun v => (pyToInt v).map RefVal.i)
  | .path, d => (dictGet d "path").map (fun v => RefVal.s (displayablePath v))

/-- Build `obj_by_ref = {self.ref_field_value(o): o for o in objs}` as a
reference-value -> index table.  Entries are prepended, so a lookup that takes
the first match realizes the Python dict's last-binding-wins semantics. -/
def buildRefIdxGo (rf : RefField) :
    List Model → Nat → List (RefVal × Nat) → Except String (List (RefVal × Nat))
  | [], _, acc => .ok acc
  | o :: rest, i, acc =>
    match ref_field_value rf o with
    | none => .error "invalid reference value"
    | some rv => buildRefIdxGo rf rest (i + 1) ((rv, i) :: acc)

/-- `obj_by_ref[val]` as an index lookup. -/
def lookupRef (refIdx : List (RefVal × Nat)) (rv : RefVal) : Option Nat :=
  (refIdx.find? (fun p => p.1 = rv)).map (fun p => p.2)

/-- The ignored-field scan: the first configured field whose value differs
between the old and the new document, where `dict.get` reads an absent field
as Python `None` and values compare with Python `==`. -/
def forbiddenKey (igs : List String) (od nd : Doc) : Option String :=
  igs.find? (fun k =>
    ! pyEq ((dictGet od k).getD .pnone) ((dictGet nd k).getD .pnone))

/-- `'number of objects changed from {} to {}'`. -/
def countWarn (a b : Nat) : String :=
  "number of objects changed from " ++ toString a ++ " to " ++ toString b

/-- `'ignoring object whose {} changed'`. -/
def ignoreWarn (k : String) : String :=
  "ignoring object whose " ++ k ++ " changed"

/-- The `for old_dict, new_dict in zip(old_data, new_data)` loop: skip (with a
warning) any pair whose ignored fields differ, otherwise resolve the original
record from the old document's reference value and apply the new document to
it.  `Except.error` models the uncaught KeyError of a failed reference
lookup. -/
def applyDataLoop (rf : RefField) (igs : List String)
    (refIdx : List (RefVal × Nat)) :
    List Model → List (Doc × Doc) → List String →
      Except String (List Model × List String)
  | objs, [], warns => .ok (objs, warns)
  | objs, (od, nd) :: rest, warns =>
    match forbiddenKey igs od nd with
    | some k => applyDataLoop rf igs refIdx objs rest (warns ++ [ignoreWarn k])
    | none =>
      match obj_from_ref rf od with
      | none => .error "KeyError"
      | some rv =>
        match lookupRef refIdx rv with
        | none => .error "KeyError"
        | some m =>
          match objs[m]? with
          | none => .error "KeyError"
          | some o => applyDataLoop rf igs refIdx (objs.set m (apply_ o nd)) rest warns

/-- `apply_data(self, objs, old_data, new_data)`: warn when the document count
changed, index the records by reference value, then reconcile the
positionally zipped document pairs.  The returned string list collects the
emitted warnings. -/
def apply_data (rf : RefField) (igs : List String) (objs : List Model)
    (old_data new_data : List Doc) : Except String (List Model × List String) :=
  let warns := if old_data.length = new_data.length then []
               else [countWarn old_data.length new_data.length]
  match buildRefIdxGo rf objs 0 [] with
  | .error e => .error e
  | .ok refIdx => applyDataLoop rf igs refIdx objs (old_data.zip new_data) warns

/-- The record index a pair's old document resolves to. -/
def pairTarget (rf : RefField) (refIdx : List (RefVal × Nat)) (od : Doc) :
    Option Nat :=
  (obj_from_ref rf od).bind (lookupRef refIdx)

/-! ### Count mismatch is non-fatal (C6) -/

/-- The warnings accumulated by the loop sit after whatever warnings it was
started with. -/
lemma applyDataLoop_warns (rf : RefField) (igs : List String)
    (refIdx : List (RefVal × Nat)) :
    ∀ (pairs : List (Doc × Doc)) (objs : List Model) (w : List String),
      applyDataLoop rf igs refIdx objs pairs w
        = (applyDataLoop rf igs refIdx objs pairs []).map
            (fun r => (r.1, w ++ r.2)) := by
  intro pairs
  induction pairs with
  | nil =>
    intro objs w
    simp [applyDataLoop, Except.map]
  | cons p rest ih =>
    intro objs w
    obtain ⟨od, nd⟩ := p
    cases hfk : forbiddenKey igs od nd with
    | some k =>
      simp only [applyDataLoop, hfk]
      rw [ih objs (w ++ [ignoreWarn k]), ih objs ([] ++ [ignoreWarn k])]
      cases applyDataLoop rf igs refIdx objs rest [] with
      | error e => rfl
      | ok r => simp [Except.map]
    | none =>
      cases hor : obj_from_ref rf od with
      | none => simp [applyDataLoop, hfk, hor, Except.map]
      | some rv =>
        cases hlk : lookupRef refIdx rv with
        | none => simp [applyDataLoop, hfk, hor, hlk, Except.map]
        | some m =>
          cases hob : objs[m]? with
          | none => simp [applyDataLoop, hfk, hor, hlk, hob, Except.map]
          | some o =>
            simp only [applyDataLoop, hfk, hor, hlk, hob]
            exact ih (objs.set m (apply_ o nd)) w

/-- C6: a count mismatch between the original and the edited documents is not
an error: up to the extra warning recording the length change, `apply_data`
behaves exactly as on the two sequences truncated to the shorter length - the
positional pairing covers `min` of the two lengths and the surplus documents
are silently dropped. -/
theorem C6_count_mismatch (rf : RefField) (igs : List String)
    (objs : List Model) (old_data new_data : List Doc)
    (hne : old_data.length ≠ new_data.length) :
    (old_data.zip new_data).length = min old_data.length new_data.length ∧
    apply_data rf igs objs old_data new_data
      = (apply_data rf igs objs
          (old_data.take (min old_data.length new_data.length))
          (new_data.take (min old_data.length new_data.length))).map
          (fun r => (r.1, countWarn old_data.length new_data.length :: r.2)) := by
  constructor
  · simp
  · set n := min old_data.length new_data.length with hn
    have hto : (old_data.take n).length = n :=
      List.length_take_of_le (by rw [hn]; exact Nat.min_le_left _ _)
    have htn : (new_data.take n).length = n :=
      List.length_take_of_le (by rw [hn]; exact Nat.min_le_right _ _)
    have hzip : (old_data.take n).zip (new_data.take n) = old_data.zip new_data := by
      rw [List.zip_eq_zipWith, List.zip_eq_zipWith, ← List.take_zipWith]
      exact List.take_of_length_le (by simp [hn])
    unfold apply_data
    rw [if_neg hne, if_pos (hto.trans htn.symm), hzip]
    cases buildRefIdxGo rf objs 0 [] with
    | error e => rfl
    | ok refIdx =>
      simp only
      rw [applyDataLoop_warns rf igs refIdx (old_data.zip new_data) objs
        [countWarn old_data.length new_data.length]]
      rfl

theorem C6_witness :
    ([].zip [[("a", PyValue.pint 1)]] : List (Doc × Doc)).length
        = min ([] : List Doc).length [[("a", PyValue.pint 1)]].length ∧
    apply_data RefField.id [] [] [] [[("a", PyValue.pint 1)]]
      = (apply_data RefField.id [] []
          (([] : List Doc).take (min 0 1))
          ([[("a", PyValue.pint 1)]].take (min 0 1))).map
          (fun r => (r.1, countWarn 0 1 :: r.2)) :=
  C6_count_mismatch RefField.id [] [] [] [[("a", PyValue.pint 1)]] (by decide)

/-! ### Ignore-field protection (C2) -/

/-- Full characterization of the reconciliation loop when every pair's old
document resolves to a record and no two pairs resolve to the same record:
the loop succeeds, records hit by a forbidden pair (and records hit by no
pair) are left exactly as they were, and every other targeted record receives
`apply_` of its pair's new document. -/
lemma applyDataLoop_characterize (rf : RefField) (igs : List String)
    (refIdx : List (RefVal × Nat)) :
    ∀ (pairs : List (Doc × Doc)) (objs : List Model) (w : List String),
      (∀ p ∈ pairs, ∃ m, pairTarget rf refIdx p.1 = some m ∧ m < objs.length) →
      pairs.Pairwise (fun p q =>
        pairTarget rf refIdx p.1 ≠ pairTarget rf refIdx q.1) →
      ∃ objs2 warns,
        applyDataLoop rf igs refIdx objs pairs w = .ok (objs2, warns) ∧
        objs2.length = objs.length ∧
        (∀ m, (∀ p ∈ pairs, pairTarget rf refIdx p.1 ≠ some m) →
          objs2[m]? = objs[m]?) ∧
        (∀ p ∈ pairs, ∀ m, pairTarget rf refIdx p.1 = some m →
          (forbiddenKey igs p.1 p.2 ≠ none → objs2[m]? = objs[m]?) ∧
          (forbiddenKey igs p.1 p.2 = none →
            objs2[m]? = (objs[m]?).map (fun o => apply_ o p.2))) := by
  intro pairs
  induction pairs with
  | nil =>
    intro objs w _ _
    exact ⟨objs, w, rfl, rfl, fun m _ => rfl,
      fun p hp => absurd hp (List.not_mem_nil p)⟩
  | cons hd rest ih =>
    intro objs w hres hinj
    obtain ⟨od, nd⟩ := hd
    obtain ⟨hhead, hrestpw⟩ := List.pairwise_cons.mp hinj
    obtain ⟨m0, htgt, hm0⟩ := hres (od, nd) (List.mem_cons_self _ _)
    cases hfk : forbiddenKey igs od nd with
    | some k =>
      obtain ⟨objs2, warns, heq, hlen, huntgt, hpair⟩ :=
        ih objs (w ++ [ignoreWarn k])
          (fun p hp => hres p (List.mem_cons_of_mem _ hp)) hrestpw
      refine ⟨objs2, warns, ?_, hlen, ?_, ?_⟩
      · simp only [applyDataLoop, hfk]
        exact heq
      · intro m hm
        exact huntgt m (fun p hp => hm p (List.mem_cons_of_mem _ hp))
      · intro p hp m htgtp
        rcases List.mem_cons.mp hp with rfl | hp
        · refine ⟨fun _ => ?_, fun hnone => ?_⟩
          · refine huntgt m (fun q hq => ?_)
            have := hhead q hq
            rw [htgtp] at this
            intro hcontra
            exact this (hcontra ▸ rfl)
          · rw [hfk] at hnone
            cases hnone
        · exact hpair p hp m htgtp
    | none =>
      obtain ⟨rv, hor, hlk⟩ := Option.bind_eq_some.mp htgt
      have hob : objs[m0]? = some objs[m0] := List.getElem?_eq_getElem hm0
      obtain ⟨objs2, warns, heq, hlen, huntgt, hpair⟩ :=
        ih (objs.set m0 (apply_ objs[m0] nd)) w
          (fun p hp => by
            obtain ⟨m, hm, hmlt⟩ := hres p (List.mem_cons_of_mem _ hp)
            exact ⟨m, hm, by simpa using hmlt⟩) hrestpw
      have hset_at : (objs.set m0 (apply_ objs[m0] nd))[m0]?
          = some (apply_ objs[m0] nd) := by
        rw [List.getElem?_set_self (by simpa using hm0)]
      have hset_ne : ∀ m, m0 ≠ m →
          (objs.set m0 (apply_ objs[m0] nd))[m]? = objs[m]? := by
        intro m hne
        exact List.getElem?_set_ne hne
      refine ⟨objs2, warns, ?_, by simpa using hlen, ?_, ?_⟩
      · simp only [applyDataLoop, hfk, hor, hlk, hob]
        exact heq
      · intro m hm
        have h1 := huntgt m (fun p hp => hm p (List.mem_cons_of_mem _ hp))
        have hne : m0 ≠ m := by
          intro hcontra
          exact hm (od, nd) (List.mem_cons_self _ _) (hcontra ▸ htgt)
        rw [h1, hset_ne m hne]
      · intro p hp m htgtp
        rcases List.mem_cons.mp hp with rfl | hp
        · have hmm0 : m = m0 := by
            rw [htgt] at htgtp
            exact (Option.some.injEq _ _ ▸ htgtp).symm
          subst hmm0
          refine ⟨fun hforb => absurd hfk hforb, fun _ => ?_⟩
          have h1 : objs2[m]? = (objs.set m (apply_ objs[m] nd))[m]? := by
            refine huntgt m (fun q hq => ?_)
            have := hhead q hq
            rw [htgt] at this
            intro hcontra
            exact this (hcontra ▸ rfl)
          rw [h1, hset_at, hob]
          rfl
        · have hne : m0 ≠ m := by
            intro hcontra
            subst hcontra
            exact hhead p hp (htgt.trans htgtp.symm)
          have := hpair p hp m htgtp
          rw [hset_ne m hne] at this
          exact this

/-- C2: in `apply_data`, any pair whose configured ignore fields differ
between the old and the new document leaves its record completely
unmodified, while every pair whose ignore fields are unchanged has its new
document applied to its record; no other record is touched.  The hypotheses
say that every old document's reference value resolves to a record of the
batch and that no two pairs resolve to the same record. -/
theorem C2_ignore_protection (rf : RefField) (igs : List String)
    (objs : List Model) (old_data new_data : List Doc)
    (refIdx : List (RefVal × Nat))
    (hidx : buildRefIdxGo rf objs 0 [] = .ok refIdx)
    (hres : ∀ p ∈ old_data.zip new_data,
      ∃ m, pairTarget rf refIdx p.1 = some m ∧ m < objs.length)
    (hinj : (old_data.zip new_data).Pairwise (fun p q =>
      pairTarget rf refIdx p.1 ≠ pairTarget rf refIdx q.1)) :
    ∃ objs2 warns,
      apply_data rf igs objs old_data new_data = .ok (objs2, warns) ∧
      objs2.length = objs.length ∧
      (∀ m, (∀ p ∈ old_data.zip new_data, pairTarget rf refIdx p.1 ≠ some m) →
        objs2[m]? = objs[m]?) ∧
      (∀ p ∈ old_data.zip new_data, ∀ m, pairTarget rf refIdx p.1 = some m →
        (forbiddenKey igs p.1 p.2 ≠ none → objs2[m]? = objs[m]?) ∧
        (forbiddenKey igs p.1 p.2 = none →
          objs2[m]? = (objs[m]?).map (fun o => apply_ o p.2))) := by
  obtain ⟨objs2, warns, heq, hrest⟩ :=
    applyDataLoop_characterize rf igs refIdx (old_data.zip new_data) objs
      (if old_data.length = new_data.length then []
       else [countWarn old_data.length new_data.length]) hres hinj
  refine ⟨objs2, warns, ?_, hrest⟩
  unfold apply_data
  rw [hidx]
  exact heq

/-- Concrete records for the C2 witness: two items with ids 1 and 2. -/
def mC2a : Model :=
  { keysL := ["id", "title"]
    typ := fun k => if k = "id" then .integer else .other
    val := fun k => if k = "id" then .pint 1
                    else if k = "title" then .pstr "t1" else .pnone
    fmt := fun _ v => pyStr v
    parse := fun _ s => .pstr s }

def mC2b : Model :=
  { keysL := ["id", "title"]
    typ := fun k => if k = "id" then .integer else .other
    val := fun k => if k = "id" then .pint 2
                    else if k = "title" then .pstr "t2" else .pnone
    fmt := fun _ v => pyStr v
    parse := fun _ s => .pstr s }

theorem C2_witness :
    ∃ objs2 warns,
      apply_data RefField.id ["id", "path"] [mC2a, mC2b]
          [[("id", PyValue.pint 1)], [("id", PyValue.pint 2)]]
          [[("id", PyValue.pint 9)],
           [("id", PyValue.pint 2), ("title", PyValue.pstr "new")]]
        = .ok (objs2, warns) ∧
      objs2.length = [mC2a, mC2b].length ∧
      (∀ m, (∀ p ∈ ([[("id", PyValue.pint 1)], [("id", PyValue.pint 2)]].zip
              [[("id", PyValue.pint 9)],
               [("id", PyValue.pint 2), ("title", PyValue.pstr "new")]]),
          pairTarget RefField.id [(RefVal.i 2, 1), (RefVal.i 1, 0)] p.1 ≠ some m) →
        objs2[m]? = [mC2a, mC2b][m]?) ∧
      (∀ p ∈ ([[("id", PyValue.pint 1)], [("id", PyValue.pint 2)]].zip
          [[("id", PyValue.pint 9)],
           [("id", PyValue.pint 2), ("title", PyValue.pstr "new")]]),
        ∀ m, pairTarget RefField.id [(RefVal.i 2, 1), (RefVal.i 1, 0)] p.1 = some m →
          (forbiddenKey ["id", "path"] p.1 p.2 ≠ none →
            objs2[m]? = [mC2a, mC2b][m]?) ∧
          (forbiddenKey ["id", "path"] p.1 p.2 = none →
            objs2[m]? = ([mC2a, mC2b][m]?).map (fun o => apply_ o p.2))) :=
  C2_ignore_protection RefField.id ["id", "path"] [mC2a, mC2b]
    [[("id", PyValue.pint 1)], [("id", PyValue.pint 2)]]
    [[("id", PyValue.pint 9)],
     [("id", PyValue.pint 2), ("title", PyValue.pstr "new")]]
    [(RefVal.i 2, 1), (RefVal.i 1, 0)] rfl
    (by
      intro p hp
      rcases List.mem_cons.mp hp with rfl | hp
      · exact ⟨0, by decide, by decide⟩
      rcases List.mem_cons.mp hp with rfl | hp
      · exact ⟨1, by decide, by decide⟩
      · cases hp)
    (by
      refine List.Pairwise.cons ?_ (List.Pairwise.cons (fun q hq => nomatch hq)
        List.Pairwise.nil)
      intro q hq
      rcases List.mem_cons.mp hq with rfl | hq
      · decide
      · cases hq)

/-! ### Presence semantics of the ignored-field check (C10) -/

lemma pyEq_pnone_iff (v : PyValue) : pyEq v .pnone = true ↔ v = .pnone := by
  cases v <;> simp [pyEq, pyNum]

/-- A record for the C10 counterexample: id 5, a title, and no path field
set (`val "path"` is null). -/
def mC10 : Model :=
  { keysL := ["id", "title"]
    typ := fun k => if k = "id" then .integer else .other
    val := fun k => if k = "id" then .pint 5
                    else if k = "title" then .pstr "t" else .pnone
    fmt := fun _ v => pyStr v
    parse := fun _ s => .pstr s }

/-- C10 counterexample: the ignored field `path` appears in exactly one of
the paired documents (only in the new one, with a null value), yet the record
is NOT skipped - `apply_data` modifies it, setting its `path` field from the
null entry.  `dict.get` renders both an absent field and a present-but-null
field as Python `None`, so presence alone is not part of the compared
value. -/
theorem C10_counterexample :
    (match apply_data RefField.id ["id", "path"] [mC10]
        [[("id", PyValue.pint 5)]]
        [[("id", PyValue.pint 5), ("path", PyValue.pnone)]] with
     | .ok (o :: _, _) => o.val "path"
     | _ => PyValue.pnone) = PyValue.pstr "None" ∧
    mC10.val "path" = PyValue.pnone := by
  decide

/-- C10 as amended: the ignored-field check compares `dict.get` values with
absence read as null.  An ignored field absent from both documents never
triggers the skip; an ignored field present in exactly one document triggers
the skip (the whole record is left unmodified, with the warning) whenever the
present value is non-null; a present-but-null value is indistinguishable from
absence, so it does not trigger the skip through that field. -/
theorem C10_presence_semantics (rf : RefField) (igs : List String)
    (objs : List Model) (refIdx : List (RefVal × Nat)) (od nd : Doc)
    (k : String) (hk : k ∈ igs)
    (hidx : buildRefIdxGo rf objs 0 [] = .ok refIdx) :
    (dictGet od k = none → dictGet nd k = none →
      forbiddenKey igs od nd ≠ some k) ∧
    (dictGet od k = none → dictGet nd k = some .pnone →
      forbiddenKey igs od nd ≠ some k) ∧
    (∀ v, dictGet od k = some v → dictGet nd k = none → v ≠ .pnone →
      ∃ k2, apply_data rf igs objs [od] [nd] = .ok (objs, [ignoreWarn k2])) ∧
    (∀ v, dictGet od k = none → dictGet nd k = some v → v ≠ .pnone →
      ∃ k2, apply_data rf igs objs [od] [nd] = .ok (objs, [ignoreWarn k2])) := by
  have skip_of_pred : ∀ k0, k0 ∈ igs →
      (! pyEq ((dictGet od k0).getD .pnone) ((dictGet nd k0).getD .pnone)) = true →
      ∃ k2, apply_data rf igs objs [od] [nd] = .ok (objs, [ignoreWarn k2]) := by
    intro k0 hk0 hpred
    have hsome : (forbiddenKey igs od nd).isSome := by
      unfold forbiddenKey
      exact List.find?_isSome.mpr ⟨k0, hk0, hpred⟩
    obtain ⟨k2, hk2⟩ := Option.isSome_iff_exists.mp hsome
    refine ⟨k2, ?_⟩
    unfold apply_data
    rw [hidx]
    simp [applyDataLoop, hk2]
  refine ⟨?_, ?_, ?_, ?_⟩
  · intro h1 h2 hcontra
    have := List.find?_some hcontra
    rw [h1, h2] at this
    simp [pyEq] at this
  · intro h1 h2 hcontra
    have := List.find?_some hcontra
    rw [h1, h2] at this
    simp [pyEq] at this
  · intro v h1 h2 hv
    refine skip_of_pred k hk ?_
    rw [h1, h2]
    simp only [Option.getD_some, Option.getD_none, Bool.not_eq_true']
    exact Bool.eq_false_iff.mpr (fun hcontra => hv ((pyEq_pnone_iff v).mp hcontra))
  · intro v h1 h2 hv
    refine skip_of_pred k hk ?_
    rw [h1, h2]
    simp only [Option.getD_some, Option.getD_none, Bool.not_eq_true']
    refine Bool.eq_false_iff.mpr (fun hcontra => hv ?_)
    cases v <;> simp_all [pyEq, pyNum]

/-- A record for the C10 witness: id 7. -/
def mC10w : Model :=
  { keysL := ["id", "title"]
    typ := fun k => if k = "id" then .integer else .other
    val := fun k => if k = "id" then .pint 7
                    else if k = "title" then .pstr "w" else .pnone
    fmt := fun _ v => pyStr v
    parse := fun _ s => .pstr s }

theorem C10_witness :
    ∃ k2, apply_data RefField.id ["id", "path"] [mC10w]
        [[("id", PyValue.pint 7)]] [[]] = .ok ([mC10w], [ignoreWarn k2]) :=
  (C10_presence_semantics RefField.id ["id", "path"] [mC10w]
      [(RefVal.i 7, 0)] [("id", PyValue.pint 7)] [] "id"
      (by decide) rfl).2.2.1 (PyValue.pint 7) rfl rfl (by decide)

/-! ### The synthetic aggregate: `FakeAlbum` (C3) -/

/-- Modelled from the spec: the host library's `Model.update(values)` (not in
src/) assigns each given field to the record in order, like a dict update. -/
def modelUpdate (o : Model) (values : Doc) : Model :=
  values.foldl (fun m kv => m.setVal kv.1 kv.2) o

/-- `FakeAlbum.__init__(items, path)`: the album structure is created from
the first item's values for the shared album fields, with the path set
manually as a single value field.

Modelled from the spec: `Album.item_keys` - "a fixed set of shared fields" -
is a host-library constant and is passed here as `itemKeys`. -/
def fakeAlbumInit (itemKeys : List String) (items : List Model) (path : String)
    (albTyp : String → FieldType) (albFmt : String → PyValue → String)
    (albParse : String → String → PyValue) : Model :=
  let i0 := items.headD Model.empty
  let values := (itemKeys.map (fun k => (k, i0.val k))).foldl
      (fun d kv => dictSet d kv.1 kv.2) []
  let values2 := dictSet values "path" (.pstr (displayablePath (.pstr path)))
  { keysL := values2.map (fun kv => kv.1)
    typ := albTyp
    val := fun k =>
      ((values2.find? (fun kv => kv.1 = k)).map (fun kv => kv.2)).getD .pnone
    fmt := albFmt
    parse := albParse }

/-- `FakeAlbum._apply_changes`: read the album's current value of every
shared field and write all of them onto every source item. -/
def apply_changes (itemKeys : List String) (album : Model)
    (srcItems : List Model) : List Model :=
  let values := itemKeys.map (fun k => (k, album.val k))
  srcItems.map (fun i => modelUpdate i values)

lemma modelUpdate_val_not_mem {k : String} :
    ∀ (values : Doc) (o : Model), k ∉ values.map (fun kv => kv.1) →
      (modelUpdate o values).val k = o.val k := by
  intro values
  induction values with
  | nil => intro o _; rfl
  | cons kv rest ih =>
    intro o hk
    simp only [List.map_cons, List.mem_cons, not_or] at hk
    have : (modelUpdate o (kv :: rest)).val k
        = (modelUpdate (o.setVal kv.1 kv.2) rest).val k := rfl
    rw [this, ih (o.setVal kv.1 kv.2) (by simpa using hk.2), setVal_val,
      if_neg hk.1]

lemma modelUpdate_val_mem {k : String} {v : PyValue} :
    ∀ (values : Doc) (o : Model), (values.map (fun kv => kv.1)).Nodup →
      (k, v) ∈ values → (modelUpdate o values).val k = v := by
  intro values
  induction values with
  | nil => intro o _ hmem; cases hmem
  | cons kv rest ih =>
    intro o hnd hmem
    simp only [List.map_cons, List.nodup_cons] at hnd
    rcases List.mem_cons.mp hmem with rfl | hmem
    · have : (modelUpdate o ((k, v) :: rest)).val k
          = (modelUpdate (o.setVal k v) rest).val k := rfl
      rw [this, modelUpdate_val_not_mem rest _ hnd.1, setVal_val, if_pos rfl]
    · exact ih (o.setVal kv.1 kv.2) hnd.2 hmem

lemma zip_self_map {α β : Type _} (f : α → β) :
    ∀ (l : List α), l.zip (l.map f) = l.map (fun a => (a, f a)) := by
  intro l
  induction l with
  | nil => rfl
  | cons a l ih => simp [ih]

/-- C3 as amended: after an accepted aggregate edit that set the aggregate's
`album` field to "B", propagation gives every constituent item `album = "B"`
and, more generally, overwrites EVERY shared (`item_keys`) field of every
item with the aggregate's value for it, while fields outside the shared set
are untouched.  (The original claim - that no field other than `album`
changes - fails because all shared fields are pushed, not only edited ones:
see the counterexample.) -/
theorem C3_aggregate_propagation (itemKeys : List String)
    (albumEdited : Model) (items : List Model) (hnd : itemKeys.Nodup)
    (hA : "album" ∈ itemKeys)
    (hB : albumEdited.val "album" = .pstr "B") :
    ∀ p ∈ items.zip (apply_changes itemKeys albumEdited items),
      p.2.val "album" = .pstr "B" ∧
      (∀ k ∈ itemKeys, p.2.val k = albumEdited.val k) ∧
      (∀ k, k ∉ itemKeys → p.2.val k = p.1.val k) := by
  intro p hp
  rw [apply_changes, zip_self_map] at hp
  rcases List.mem_map.mp hp with ⟨i, _, rfl⟩
  have hkeys : ((itemKeys.map (fun k => (k, albumEdited.val k))).map
      (fun kv => kv.1)) = itemKeys := by
    rw [List.map_map]
    exact List.map_id'' (fun x => rfl) itemKeys
  have hshared : ∀ k ∈ itemKeys,
      (modelUpdate i (itemKeys.map (fun k => (k, albumEdited.val k)))).val k
        = albumEdited.val k := by
    intro k hk
    exact modelUpdate_val_mem _ i (by rw [hkeys]; exact hnd)
      (List.mem_map_of_mem _ hk)
  refine ⟨?_, hshared, ?_⟩
  · rw [hshared "album" hA, hB]
  · intro k hk
    exact modelUpdate_val_not_mem _ i (by rw [hkeys]; exact hk)

/-- The shared album fields for the C3 counterexample. -/
def itemKeysC3 : List String := ["album", "albumartist"]

/-- First item of the group: album "A", albumartist "X". -/
def i1C3 : Model :=
  { keysL := ["album", "albumartist", "title"]
    typ := fun _ => .other
    val := fun k => if k = "album" then .pstr "A"
                    else if k = "albumartist" then .pstr "X"
                    else if k = "title" then .pstr "t1" else .pnone
    fmt := fun _ v => pyStr v
    parse := fun _ s => .pstr s }

/-- Second item of the group: same album "A" but a different albumartist
"Y". -/
def i2C3 : Model :=
  { keysL := ["album", "albumartist", "title"]
    typ := fun _ => .other
    val := fun k => if k = "album" then .pstr "A"
                    else if k = "albumartist" then .pstr "Y"
                    else if k = "title" then .pstr "t2" else .pnone
    fmt := fun _ v => pyStr v
    parse := fun _ s => .pstr s }

/-- The synthetic aggregate built from the first item, with only its `album`
field edited from "A" to "B" (the accepted edit). -/
def albC3 : Model :=
  (fakeAlbumInit itemKeysC3 [i1C3, i2C3] "/p" (fun _ => .other)
    (fun _ v => pyStr v) (fun _ s => .pstr s)).setVal "album" (.pstr "B")

/-- The (item, updated item) pairs after propagation. -/
def zipC3 : List (Model × Model) :=
  [i1C3, i2C3].zip (apply_changes itemKeysC3 albC3 [i1C3, i2C3])

/-- C3 counterexample: with two constituent items that agree on `album` but
differ on the shared field `albumartist`, editing only the aggregate's
`album` from "A" to "B" and propagating does NOT leave all non-`album`
fields unchanged: the second item's `albumartist` is overwritten with the
first item's value. -/
theorem C3_counterexample :
    ¬ ((∀ p ∈ zipC3, p.2.val "album" = PyValue.pstr "B") ∧
       (∀ p ∈ zipC3, ∀ k, k ≠ "album" → p.2.val k = p.1.val k)) := by
  rintro ⟨_, h⟩
  have hmem : (i2C3, modelUpdate i2C3
      (itemKeysC3.map (fun k => (k, albC3.val k)))) ∈ zipC3 := by
    have e : zipC3 = [(i1C3, modelUpdate i1C3
        (itemKeysC3.map (fun k => (k, albC3.val k)))),
        (i2C3, modelUpdate i2C3
        (itemKeysC3.map (fun k => (k, albC3.val k))))] := rfl
    rw [e]
    exact List.mem_cons_of_mem _ (List.mem_cons_self _ _)
  have h2 := h _ hmem "albumartist" (by decide)
  have hlhs : (modelUpdate i2C3
      (itemKeysC3.map (fun k => (k, albC3.val k)))).val "albumartist"
      = PyValue.pstr "X" := by decide
  have hrhs : i2C3.val "albumartist" = PyValue.pstr "Y" := by decide
  rw [hlhs, hrhs] at h2
  exact absurd h2 (by decide)

/-- Aggregate and item for the C3 witness. -/
def albW3 : Model :=
  { keysL := ["album"]
    typ := fun _ => .other
    val := fun k => if k = "album" then .pstr "B" else .pnone
    fmt := fun _ v => pyStr v
    parse := fun _ s => .pstr s }

def iW3 : Model :=
  { keysL := ["album", "title"]
    typ := fun _ => .other
    val := fun k => if k = "album" then .pstr "A"
                    else if k = "title" then .pstr "w" else .pnone
    fmt := fun _ v => pyStr v
    parse := fun _ s => .pstr s }

theorem C3_witness :
    ((iW3, modelUpdate iW3
        (["album"].map (fun k => (k, albW3.val k)))) : Model × Model).2.val
        "album" = PyValue.pstr "B" :=
  (C3_aggregate_propagation ["album"] albW3 [iW3] (by decide)
    (List.mem_cons_self _ _) (by decide)
    (iW3, modelUpdate iW3 (["album"].map (fun k => (k, albW3.val k))))
    (by
      have e : [iW3].zip (apply_changes ["album"] albW3 [iW3])
          = [(iW3, modelUpdate iW3 (["album"].map (fun k => (k, albW3.val k))))] :=
        rfl
      rw [e]
      exact List.mem_cons_self _ _)).1

/-! ### The importer "edit originals" hook (C4) -/

/-- An interactive import task as far as the hook inspects it. -/
structure ImportTask where
  is_singleton : Bool
  items : List Model
  toppath : String

/-- Line 390 of the source reads `singleton = isinstance(object,
SingletonImportTask)`.  The first argument is Python's builtin class
`object`, not the task being processed, and a class object is never an
instance of `SingletonImportTask`, so the test is constantly False whatever
the task is. -/
def importer_edit_singleton (_task : ImportTask) : Bool := false

/-- The batch of records `importer_edit` hands to the edit session: a copy of
the task's items, with a `FakeAlbum` built from them prepended whenever the
(buggy) singleton test is false. -/
def importer_edit_batch (itemKeys : List String) (task : ImportTask)
    (albTyp : String → FieldType) (albFmt : String → PyValue → String)
    (albParse : String → String → PyValue) : List Model :=
  let singleton := importer_edit_singleton task
  let items := task.items
  if singleton then items
  else fakeAlbumInit itemKeys task.items task.toppath albTyp albFmt albParse
    :: items

/-- The item of the singleton task exhibiting the C4 bug. -/
def mC4item : Model :=
  { keysL := ["title"]
    typ := fun _ => .other
    val := fun k => if k = "title" then .pstr "solo" else .pnone
    fmt := fun _ v => pyStr v
    parse := fun _ s => .pstr s }

/-- A singleton import task. -/
def taskC4 : ImportTask :=
  { is_singleton := true, items := [mC4item], toppath := "/top" }

/-- C4 (code bug): for a singleton import task the synthetic aggregate is
still prepended to the edit batch, because the singleton test at line 390
checks `isinstance(object, SingletonImportTask)` - the Python builtin
`object`, not `task` - and is therefore always False.  The spec (and the
claim) say a singleton task gets no synthetic aggregate. -/
theorem C4_singleton_prepended_anyway :
    taskC4.is_singleton = true ∧
    importer_edit_batch ["album"] taskC4 (fun _ => .other)
        (fun _ v => pyStr v) (fun _ s => .pstr s)
      = fakeAlbumInit ["album"] taskC4.items taskC4.toppath (fun _ => .other)
          (fun _ v => pyStr v) (fun _ s => .pstr s) :: taskC4.items :=
  ⟨rfl, rfl⟩

/-! ### The reference field is always among the edited fields (C9) -/

/-- The plugin's field configuration (whitespace-separated option lists). -/
structure EditConfig where
  albumfields : List String
  itemfields : List String

/-- `_get_fields(album, extra)`: the configured base fields, plus the
requested extra fields when any, plus the reference field.  The source
returns `set(fields)`; membership in that set - the only way the result is
consumed, via `k in fields` - coincides with membership in this list. -/
def get_fields (cfg : EditConfig) (album : Bool) (extra : List String)
    (rf : RefField) : List String :=
  let fields := if album then cfg.albumfields else cfg.itemfields
  let fields := if extra.isEmpty then fields else fields ++ extra
  fields ++ [refName rf]

lemma flatten_none_keys (obj : Model) :
    (flatten obj none).map (fun kv => kv.1) = obj.keysL := by
  unfold flatten
  rw [List.map_map]
  exact List.map_id'' (fun x => rfl) obj.keysL

/-- C9: whether the field subset comes from the configured defaults plus any
`--field` extras (`get_fields`) or everything is edited (`--all`, a `none`
filter), the flattened document of any record holding the reference field
among its keys contains the reference field. -/
theorem C9_reference_field_flattened (cfg : EditConfig) (album : Bool)
    (extra : List String) (rf : RefField) (obj : Model)
    (href : refName rf ∈ obj.keysL) :
    refName rf ∈ (flatten obj
        (some (get_fields cfg album extra rf))).map (fun kv => kv.1) ∧
    refName rf ∈ (flatten obj none).map (fun kv => kv.1) := by
  constructor
  · have hne : (get_fields cfg album extra rf).isEmpty = false := by
      unfold get_fields
      simp
    have hcont : (get_fields cfg album extra rf).contains (refName rf) = true := by
      unfold get_fields
      simp
    have hmemd : (refName rf,
        if safe_value obj (refName rf) (obj.val (refName rf))
        then obj.val (refName rf)
        else .pstr (obj.fmt (refName rf) (obj.val (refName rf))))
        ∈ obj.keysL.map (fun k =>
          (k, if safe_value obj k (obj.val k) then obj.val k
              else .pstr (obj.fmt k (obj.val k)))) :=
      List.mem_map_of_mem _ href
    unfold flatten
    simp only [hne, Bool.false_eq_true, if_false]
    exact List.mem_map_of_mem _ (List.mem_filter.mpr ⟨hmemd, hcont⟩)
  · rw [flatten_none_keys]
    exact href

/-- A record for the C9 witness. -/
def mC9 : Model :=
  { keysL := ["id", "title"]
    typ := fun k => if k = "id" then .integer else .other
    val := fun k => if k = "id" then .pint 4
                    else if k = "title" then .pstr "t" else .pnone
    fmt := fun _ v => pyStr v
    parse := fun _ s => .pstr s }

theorem C9_witness :
    refName RefField.id ∈ (flatten mC9
        (some (get_fields ⟨["album"], ["track", "title"]⟩ false [] RefField.id))).map
        (fun kv => kv.1) ∧
    refName RefField.id ∈ (flatten mC9 none).map (fun kv => kv.1) :=
  C9_reference_field_flattened ⟨["album"], ["track", "title"]⟩ false []
    RefField.id mC9 (by decide)

/-! ### The interactive edit-confirm loop: `edit_objects` (C8) -/

/-- The external collaborators of one edit session: the YAML dumper and
parser, `ui.show_model_changes` (prints and reports whether a record
changed), and `obj.read()` (reload a record from its backing source). -/
structure EditEnv where
  yamlDumpAll : List Doc → String
  yamlLoadAll : String → YamlStream
  showChanged : Model → Option Model → Bool
  readModel : Model → Model

/-- The user's answer to the `continue Editing / apply / cancel` prompt
(`ui.input_options` re-prompts until one of the three is chosen). -/
inductive Choice where
  | apply
  | cancel
  | editAgain
deriving DecidableEq

/-- One round of the session loop: the temporary file's text after the editor
ran, the answer to the "Edit again to fix?" question if parsing fails, and
the confirm choice if changes are shown. -/
structure EditorRound where
  text : String
  fixAgain : Bool
  choice : Choice

/-- `objs_old = {self.ref_field_value(obj): deepcopy(obj)} ` built before the
data is applied; prepended so that a first-match lookup realizes dict
last-binding-wins semantics. -/
def buildSnapshotGo (rf : RefField) :
    List Model → List (RefVal × Model) → Except String (List (RefVal × Model))
  | [], acc => .ok acc
  | o :: rest, acc =>
    match ref_field_value rf o with
    | none => .error "invalid reference value"
    | some rv => buildSnapshotGo rf rest ((rv, o) :: acc)

def snapshotLookup (snap : List (RefVal × Model)) (rv : RefVal) :
    Option Model :=
  (snap.find? (fun p => p.1 = rv)).map (fun p => p.2)

/-- The `changed |= ui.show_model_changes(obj, obj_old)` fold over the
records after the parsed data has been applied.  A record with a falsy id has
its pre-edit deep copy looked up in the snapshot (`Except.error` models the
KeyError / NameError paths of the source's TODO uglyness). -/
def changedGo (env : EditEnv) (rf : RefField)
    (snap : Option (List (RefVal × Model))) :
    Bool → List Model → Except String Bool
  | acc, [] => .ok acc
  | acc, o :: rest =>
    if pyFalsy (o.val "id") then
      match snap with
      | none => .error "objs_old is not defined"
      | some s =>
        match ref_field_value rf o with
        | none => .error "invalid reference value"
        | some rv =>
          match snapshotLookup s rv with
          | none => .error "KeyError"
          | some oOld => changedGo env rf snap (acc || env.showChanged o (some oOld)) rest
    else changedGo env rf snap (acc || env.showChanged o none) rest

/-- The `while True` body of `edit_objects`, driven by the successive editor
results.  Returns the session outcome and the records as the session leaves
them.  An empty round list models the user abandoning the session (the
Python loop would block waiting for the editor); the claims below only
concern rounds that are present. -/
def edit_objects_loop (env : EditEnv) (rf : RefField) (igs : List String)
    (old_data : List Doc) (old_str : String) :
    List Model → List EditorRound → Except String (Bool × List Model)
  | objs, [] => .ok (false, objs)
  | objs, r :: rest =>
    if r.text = old_str then .ok (false, objs)
    else
      match load (env.yamlLoadAll r.text) with
      | .error _ =>
        if r.fixAgain then edit_objects_loop env rf igs old_data old_str objs rest
        else .ok (false, objs)
      | .ok new_data =>
        match (if objs.all (fun o => pyFalsy (o.val "id")) then
                (buildSnapshotGo rf objs []).map some
               else .ok none) with
        | .error e => .error e
        | .ok snap =>
          match apply_data rf igs objs old_data new_data with
          | .error e => .error e
          | .ok (objs2, _warns) =>
            match changedGo env rf snap false objs2 with
            | .error e => .error e
            | .ok changed =>
              if !changed then .ok (false, objs2)
              else
                match r.choice with
                | .apply => .ok (true, objs2)
                | .cancel => .ok (false, objs2)
                | .editAgain =>
                  edit_objects_loop env rf igs old_data old_str
                    (objs2.map env.readModel) rest

/-- `edit_objects(objs, item_fields, album_fields)`: flatten each record with
the field filter matching its kind, serialize the batch once as the pre-edit
text, and run the session loop. -/
def edit_objects (env : EditEnv) (rf : RefField) (igs : List String)
    (objs : List Model) (item_fields album_fields : Option (List String))
    (isItem : Model → Bool) (rounds : List EditorRound) :
    Except String (Bool × List Model) :=
  let old_data := objs.map (fun o =>
    flatten o (if isItem o then item_fields else album_fields))
  let old_str := dump env.yamlDumpAll old_data
  edit_objects_loop env rf igs old_data old_str objs rounds

/-- C8: if the text read back after the editor returns is byte-identical to
the pre-edit serialized text, the session ends immediately reporting no
changes (failure), with the records exactly as they were - the comparison
happens before any parsing or application. -/
theorem C8_noedit_aborts (env : EditEnv) (rf : RefField) (igs : List String)
    (objs : List Model) (item_fields album_fields : Option (List String))
    (isItem : Model → Bool) (r : EditorRound) (rest : List EditorRound)
    (h : r.text = dump env.yamlDumpAll (objs.map (fun o =>
      flatten o (if isItem o then item_fields else album_fields)))) :
    edit_objects env rf igs objs item_fields album_fields isItem (r :: rest)
      = .ok (false, objs) := by
  unfold edit_objects edit_objects_loop
  rw [if_pos h]

theorem C8_witness :
    edit_objects
      ⟨fun _ => "DOC", fun _ => ⟨[], none⟩, fun _ _ => true, fun o => o⟩
      RefField.id ["id", "path"] [mC1] (some ["title", "id"]) none
      (fun _ => true) [⟨"DOC", true, Choice.apply⟩]
      = .ok (false, [mC1]) :=
  C8_noedit_aborts
    ⟨fun _ => "DOC", fun _ => ⟨[], none⟩, fun _ _ => true, fun o => o⟩
    RefField.id ["id", "path"] [mC1] (some ["title", "id"]) none
    (fun _ => true) ⟨"DOC", true, Choice.apply⟩ [] rfl

end BeetsEdit
